import Mathlib

/-!
Verification of the load-generation and performance-analysis core of
`Web-Stress-Tester` (`main.py`), shallowly embedded in Lean 4.

Python floats are modelled as exact rationals (`ℚ`), Python ints as `Int`/`Nat`,
Python lists as `List`, and the insertion-ordered `dict`s keyed by status code
or error string as association lists (`List (κ × Nat)`) with the same
insert-or-increment behaviour.  All definitions are executable.
-/

namespace StressTest

/-- `TestResult` (main.py, lines 23-32): the outcome of one request attempt. -/
structure TestResult where
  status_code : Int
  response_time : ℚ
  content_length : Nat
  timestamp : ℚ
  thread_id : Nat
  error : String
  ttfb : ℚ
deriving DecidableEq, Repr

/-- A default `TestResult`, used only to totalise `head?`/`getLast?` lookups
that the Python code performs on lists it has already checked to be nonempty. -/
def dummyResult : TestResult := ⟨0, 0, 0, 0, 0, "", 0⟩

instance : Inhabited TestResult := ⟨dummyResult⟩

/-- `TestReport` (main.py, lines 35-49): the running aggregate of a test run.
`status_codes` is Python's insertion-ordered `Dict[int, int]` as an
association list. -/
structure TestReport where
  total_requests : Nat
  successful_requests : Nat
  failed_requests : Nat
  response_times : List ℚ
  status_codes : List (Int × Nat)
  errors : List String
  start_time : ℚ
  end_time : ℚ
  requests_per_second : ℚ
  results : List TestResult
  peak_rps : ℚ
  slowest_requests : List TestResult
deriving DecidableEq, Repr

/-- A freshly created `TestReport()` whose `start_time` has been set by the
driver: every counter is zero and every list empty. -/
def emptyReport (start : ℚ) : TestReport :=
  { total_requests := 0, successful_requests := 0, failed_requests := 0,
    response_times := [], status_codes := [], errors := [],
    start_time := start, end_time := 0, requests_per_second := 0,
    results := [], peak_rps := 0, slowest_requests := [] }

/-- Insert-or-increment on an insertion-ordered count map: the behaviour of
`if k in d: d[k] += 1 else: d[k] = 1` on a Python `dict`. -/
def bumpKey {κ : Type} [DecidableEq κ] (d : List (κ × Nat)) (k : κ) :
    List (κ × Nat) :=
  match d with
  | [] => [(k, 1)]
  | (k', v) :: rest =>
      if k' = k then (k', v + 1) :: rest else (k', v) :: bumpKey rest k

/-- Total count stored for key `k` (sum over matching entries; for maps built
by `bumpKey` the key occurs at most once). -/
def countFor {κ : Type} [DecidableEq κ] (d : List (κ × Nat)) (k : κ) : Nat :=
  ((d.filter fun e => e.1 = k).map fun e => e.2).sum

/-- Sum of all occurrence counts in a count map. -/
def sumCounts {κ : Type} (d : List (κ × Nat)) : Nat :=
  (d.map fun e => e.2).sum

/-- `StressTester._update_report` (main.py, lines 409-424): record one outcome
into the running report. -/
def _update_report (report : TestReport) (result : TestResult) : TestReport :=
  let report := { report with
    total_requests := report.total_requests + 1,
    response_times := report.response_times ++ [result.response_time],
    results := report.results ++ [result] }
  let report :=
    if result.status_code = 0 then
      { report with
        failed_requests := report.failed_requests + 1,
        errors := report.errors ++ [result.error] }
    else
      { report with successful_requests := report.successful_requests + 1 }
  { report with status_codes := bumpKey report.status_codes result.status_code }

/-- Record a finite sequence of outcomes, in order, via `_update_report`. -/
def recordAll (report : TestReport) (outcomes : List TestResult) : TestReport :=
  outcomes.foldl _update_report report

/-- The specified report invariant: `total_requests` equals
`successful_requests + failed_requests` and also the lengths of the
latency and result lists. -/
def reportInvariant (r : TestReport) : Prop :=
  r.total_requests = r.successful_requests + r.failed_requests ∧
  r.total_requests = r.response_times.length ∧
  r.total_requests = r.results.length

section CountLemmas

variable {κ : Type} [DecidableEq κ]

theorem countFor_cons (k₀ : κ) (v : Nat) (rest : List (κ × Nat)) (k : κ) :
    countFor ((k₀, v) :: rest) k =
      (if k₀ = k then v else 0) + countFor rest k := by
  by_cases h : k₀ = k <;> simp [countFor, List.filter_cons, h]

theorem sumCounts_bumpKey (d : List (κ × Nat)) (k : κ) :
    sumCounts (bumpKey d k) = sumCounts d + 1 := by
  induction d with
  | nil => simp [bumpKey, sumCounts]
  | cons e rest ih =>
      obtain ⟨k', v⟩ := e
      by_cases h : k' = k <;> simp [bumpKey, sumCounts, h] at * <;> omega

theorem countFor_bumpKey_same (d : List (κ × Nat)) (k : κ) :
    countFor (bumpKey d k) k = countFor d k + 1 := by
  induction d with
  | nil => simp [bumpKey, countFor]
  | cons e rest ih =>
      obtain ⟨k', v⟩ := e
      by_cases h : k' = k
      · subst h
        simp [bumpKey, countFor_cons]
        omega
      · simp only [bumpKey, if_neg h, countFor_cons, if_neg h, ih]
        omega

theorem countFor_bumpKey_other (d : List (κ × Nat)) (k k' : κ) (hne : k' ≠ k) :
    countFor (bumpKey d k) k' = countFor d k' := by
  have hne' : ¬ (k = k') := fun h => hne h.symm
  induction d with
  | nil =>
      simp [bumpKey, countFor, List.filter_cons, hne']
  | cons e rest ih =>
      obtain ⟨k₀, v⟩ := e
      by_cases h : k₀ = k
      · subst h
        simp [bumpKey, countFor_cons, hne']
      · simp only [bumpKey, if_neg h, countFor_cons, ih]

end CountLemmas

/-- The combined step invariant used for the status-code bookkeeping claims:
the status-code counts sum to `total_requests`, the count under key 0 is the
failure counter, and the counters/list lengths agree. -/
def fullInvariant (r : TestReport) : Prop :=
  reportInvariant r ∧
  sumCounts r.status_codes = r.total_requests ∧
  countFor r.status_codes 0 = r.failed_requests

theorem fullInvariant_update (r : TestReport) (res : TestResult)
    (h : fullInvariant r) : fullInvariant (_update_report r res) := by
  obtain ⟨⟨h1, h2, h3⟩, h4, h5⟩ := h
  by_cases hs : res.status_code = 0
  · refine ⟨⟨?_, ?_, ?_⟩, ?_, ?_⟩ <;>
      · simp [_update_report, hs, sumCounts_bumpKey, countFor_bumpKey_same,
          h1, h2, h3, h4, h5]
        try omega
  · have hne : (0 : Int) ≠ res.status_code := fun h => hs h.symm
    refine ⟨⟨?_, ?_, ?_⟩, ?_, ?_⟩ <;>
      · simp [_update_report, hs, sumCounts_bumpKey, countFor_bumpKey_same,
          countFor_bumpKey_other _ _ _ hne, h1, h2, h3, h4, h5]
        try omega

theorem fullInvariant_empty (start : ℚ) : fullInvariant (emptyReport start) := by
  refine ⟨⟨rfl, rfl, rfl⟩, rfl, rfl⟩

theorem fullInvariant_recordAll (r : TestReport) (outcomes : List TestResult)
    (h : fullInvariant r) : fullInvariant (recordAll r outcomes) := by
  induction outcomes generalizing r with
  | nil => exact h
  | cons o rest ih => exact ih _ (fullInvariant_update r o h)

theorem failed_update (r : TestReport) (res : TestResult) :
    (_update_report r res).failed_requests =
      r.failed_requests + (if res.status_code = 0 then 1 else 0) := by
  by_cases hs : res.status_code = 0 <;> simp [_update_report, hs]

theorem failed_recordAll (r : TestReport) (outcomes : List TestResult) :
    (recordAll r outcomes).failed_requests =
      r.failed_requests +
        (outcomes.filter fun o => o.status_code = 0).length := by
  induction outcomes generalizing r with
  | nil => simp [recordAll]
  | cons o rest ih =>
      have h := ih (_update_report r o)
      have h' := failed_update r o
      simp only [recordAll, List.foldl_cons] at h ⊢
      rw [h, h']
      by_cases hs : o.status_code = 0 <;>
        · simp [List.filter_cons, hs]
          try omega

/-- C1: recording any finite sequence of outcomes via `_update_report` into an
initially empty report yields `total_requests = successful_requests +
failed_requests = len(response_times) = len(results)`, and one record step
preserves this invariant from any report satisfying it. -/
theorem C1_report_invariant :
    (∀ start : ℚ, ∀ outcomes : List TestResult,
        reportInvariant (recordAll (emptyReport start) outcomes)) ∧
    (∀ r : TestReport, ∀ res : TestResult,
        reportInvariant r → reportInvariant (_update_report r res)) := by
  constructor
  · intro start outcomes
    have h := fullInvariant_recordAll (emptyReport start) outcomes
      (fullInvariant_empty start)
    exact h.1
  · intro r res h
    by_cases hs : res.status_code = 0 <;>
      · obtain ⟨h1, h2, h3⟩ := h
        exact ⟨by simp [_update_report, hs]; omega,
          by simp [_update_report, hs, h2],
          by simp [_update_report, hs, h3]⟩

/-- Witness for C1 at a concrete input: the invariant survives one concrete
record step and holds for a concrete two-outcome run. -/
theorem C1_report_invariant_witness :
    reportInvariant
      (_update_report
        (recordAll (emptyReport 0)
          [⟨200, 1, 10, 0, 1, "", 1⟩, ⟨0, 2, 0, 1, 2, "Connection refused", 0⟩])
        ⟨404, 3, 5, 2, 3, "", 3⟩) := by
  exact C1_report_invariant.2 _ _
    (C1_report_invariant.1 0
      [⟨200, 1, 10, 0, 1, "", 1⟩, ⟨0, 2, 0, 1, 2, "Connection refused", 0⟩])

/-- C10: after recording any finite sequence of outcomes into an initially
empty report, the occurrence counts in `status_codes` sum to
`total_requests`, and the count stored under key 0 is exactly the number of
transport failures (status code 0) recorded, which is `failed_requests`. -/
theorem C10_status_code_totals (start : ℚ) (outcomes : List TestResult) :
    sumCounts (recordAll (emptyReport start) outcomes).status_codes =
      (recordAll (emptyReport start) outcomes).total_requests ∧
    countFor (recordAll (emptyReport start) outcomes).status_codes 0 =
      (recordAll (emptyReport start) outcomes).failed_requests ∧
    (recordAll (emptyReport start) outcomes).failed_requests =
      (outcomes.filter fun o => o.status_code = 0).length := by
  have h := fullInvariant_recordAll (emptyReport start) outcomes
    (fullInvariant_empty start)
  refine ⟨h.2.1, h.2.2, ?_⟩
  have := failed_recordAll (emptyReport start) outcomes
  simpa [emptyReport] using this

/-! ### Finalisation (`_finalize_report`) -/

/-- The comparison used by `sorted(report.results, key=lambda x:
x.response_time, reverse=True)`: descending response time.  Python's sort is
stable; so is `List.mergeSort` with this comparison. -/
def slowerEq (a b : TestResult) : Bool := decide (b.response_time ≤ a.response_time)

/-- The results of a report stably sorted by descending response time. -/
def sortDescByTime (results : List TestResult) : List TestResult :=
  results.mergeSort slowerEq

/-- `StressTester._finalize_report` (main.py, lines 426-433), together with the
`report.end_time = time.time()` assignment every driver performs immediately
before calling it: sets `end_time` to `now`, computes `requests_per_second`
with the division-by-zero guard, and stores the 5 slowest results. -/
def _finalize_report (report : TestReport) (now : ℚ) : TestReport :=
  let report := { report with end_time := now }
  let total_time := report.end_time - report.start_time
  let report := { report with requests_per_second :=
    if total_time > 0 then (report.total_requests : ℚ) / total_time else 0 }
  { report with slowest_requests := (sortDescByTime report.results).take 5 }

theorem slowerEq_trans (a b c : TestResult) :
    slowerEq a b → slowerEq b c → slowerEq a c := by
  simp only [slowerEq, decide_eq_true_eq]
  exact fun h1 h2 => le_trans h2 h1

theorem slowerEq_total (a b : TestResult) : slowerEq a b || slowerEq b a := by
  simp only [slowerEq, Bool.or_eq_true, decide_eq_true_eq]
  exact le_total b.response_time a.response_time

theorem sortDescByTime_perm (l : List TestResult) :
    (sortDescByTime l).Perm l :=
  List.mergeSort_perm l slowerEq

theorem sortDescByTime_sorted (l : List TestResult) :
    (sortDescByTime l).Pairwise
      (fun a b => b.response_time ≤ a.response_time) := by
  have h := List.sorted_mergeSort slowerEq_trans slowerEq_total l
  exact h.imp (by simp only [slowerEq, decide_eq_true_eq]; exact fun h => h)

/-- Stability of the descending sort: for each latency value, the subsequence
of results carrying exactly that latency is unchanged, i.e. ties keep their
original relative order. -/
theorem sortDescByTime_stable (l : List TestResult) (q : ℚ) :
    (sortDescByTime l).filter (fun x => x.response_time = q) =
      l.filter (fun x => x.response_time = q) := by
  have hsub : (l.filter (fun x => x.response_time = q)).Sublist
      (sortDescByTime l) := by
    apply List.sublist_mergeSort slowerEq_trans slowerEq_total
    · apply List.pairwise_of_forall_mem_list
      intro a ha b hb
      have ha' := List.of_mem_filter ha
      have hb' := List.of_mem_filter hb
      simp only [decide_eq_true_eq] at ha' hb'
      simp [slowerEq, ha', hb']
    · exact List.filter_sublist l
  have hsub2 : (l.filter (fun x => x.response_time = q)).Sublist
      ((sortDescByTime l).filter (fun x => x.response_time = q)) := by
    have := List.Sublist.filter (fun x => decide (x.response_time = q)) hsub
    have heq : (l.filter (fun x => x.response_time = q)).filter
        (fun x => x.response_time = q) =
        l.filter (fun x => x.response_time = q) := by
      apply List.filter_eq_self.mpr
      intro a ha
      simpa using List.of_mem_filter ha
    rw [heq] at this
    exact this
  have hlen : ((sortDescByTime l).filter
      (fun x => x.response_time = q)).length =
      (l.filter (fun x => x.response_time = q)).length :=
    ((sortDescByTime_perm l).filter _).length_eq
  exact (hsub2.eq_of_length hlen.symm).symm

/-- C2: finalising a report at time `now` sets `end_time := now`, sets
`requests_per_second` to `total_requests / (now - start_time)` when the
elapsed time is positive and to 0 otherwise, and sets `slowest_requests` to
the first 5 elements of the results stably sorted by descending response time
(a descending-sorted permutation in which equal latencies keep their original
relative order); when fewer than 5 results exist, `slowest_requests` is a
permutation of all of them. -/
theorem C2_finalize_report (r : TestReport) (now : ℚ) :
    (_finalize_report r now).end_time = now ∧
    (_finalize_report r now).requests_per_second =
      (if now - r.start_time > 0 then
        (r.total_requests : ℚ) / (now - r.start_time) else 0) ∧
    (_finalize_report r now).slowest_requests =
      (sortDescByTime r.results).take 5 ∧
    (sortDescByTime r.results).Perm r.results ∧
    (sortDescByTime r.results).Pairwise
      (fun a b => b.response_time ≤ a.response_time) ∧
    (∀ q : ℚ, (sortDescByTime r.results).filter
        (fun x => x.response_time = q) =
        r.results.filter (fun x => x.response_time = q)) ∧
    (r.results.length < 5 →
      (_finalize_report r now).slowest_requests.Perm r.results) := by
  refine ⟨rfl, rfl, rfl, sortDescByTime_perm r.results,
    sortDescByTime_sorted r.results, sortDescByTime_stable r.results, ?_⟩
  intro hlen
  have hle : (sortDescByTime r.results).length ≤ 5 := by
    rw [(sortDescByTime_perm r.results).length_eq]
    omega
  have : (sortDescByTime r.results).take 5 = sortDescByTime r.results :=
    List.take_of_length_le hle
  simpa [_finalize_report, this] using sortDescByTime_perm r.results

/-- Witness for C2 at a concrete input: four results (with a latency tie)
are all kept, in stable descending order. -/
theorem C2_finalize_report_witness :
    (_finalize_report
      (recordAll (emptyReport 0)
        [⟨200, 1, 1, 0, 1, "", 1⟩, ⟨200, 3, 1, 1, 1, "", 3⟩,
         ⟨404, 3, 1, 2, 1, "", 3⟩, ⟨200, 2, 1, 3, 1, "", 2⟩])
      10).slowest_requests.Perm
      (recordAll (emptyReport 0)
        [⟨200, 1, 1, 0, 1, "", 1⟩, ⟨200, 3, 1, 1, 1, "", 3⟩,
         ⟨404, 3, 1, 2, 1, "", 3⟩, ⟨200, 2, 1, 3, 1, "", 2⟩]).results :=
  (C2_finalize_report _ 10).2.2.2.2.2.2 (by decide)

/-! ### Performance grade (`PerformanceAnalyzer.calculate_performance_grade`) -/

/-- `PerformanceAnalyzer.calculate_performance_grade` (main.py, lines 56-107):
score accumulation over the three components followed by the letter-grade
mapping, transcribed if-chain by if-chain. -/
def calculate_performance_grade (avg_response_time success_rate rps : ℚ) :
    String :=
  let score : Nat := 0
  let score := score +
    (if avg_response_time < 0.2 then 40
     else if avg_response_time < 0.5 then 35
     else if avg_response_time < 1.0 then 25
     else if avg_response_time < 2.0 then 15
     else 5)
  let score := score +
    (if success_rate ≥ 99.5 then 40
     else if success_rate ≥ 95 then 35
     else if success_rate ≥ 90 then 25
     else if success_rate ≥ 75 then 15
     else 5)
  let score := score +
    (if rps ≥ 50 then 20
     else if rps ≥ 20 then 18
     else if rps ≥ 10 then 15
     else if rps ≥ 5 then 10
     else 5)
  if score ≥ 90 then "A+ (Excellent)"
  else if score ≥ 80 then "A (Very Good)"
  else if score ≥ 70 then "B (Good)"
  else if score ≥ 60 then "C (Fair)"
  else if score ≥ 50 then "D (Poor)"
  else "F (Critical)"

/-- Modelled from the spec's wording: the response-time component
(max 40; thresholds `<0.2s→40, <0.5s→35, <1.0s→25, <2.0s→15, else 5`). -/
def rtScore (t : ℚ) : Nat :=
  if t < 0.2 then 40 else if t < 0.5 then 35 else if t < 1.0 then 25
  else if t < 2.0 then 15 else 5

/-- Modelled from the spec's wording: the success-rate component
(max 40; thresholds `≥99.5→40, ≥95→35, ≥90→25, ≥75→15, else 5`). -/
def srScore (s : ℚ) : Nat :=
  if s ≥ 99.5 then 40 else if s ≥ 95 then 35 else if s ≥ 90 then 25
  else if s ≥ 75 then 15 else 5

/-- Modelled from the spec's wording: the throughput component
(max 20; thresholds `≥50→20, ≥20→18, ≥10→15, ≥5→10, else 5`). -/
def tpScore (r : ℚ) : Nat :=
  if r ≥ 50 then 20 else if r ≥ 20 then 18 else if r ≥ 10 then 15
  else if r ≥ 5 then 10 else 5

/-- Modelled from the spec's wording: the letter grade of a score
(`≥90→A+, ≥80→A, ≥70→B, ≥60→C, ≥50→D, else F`). -/
def letterGrade (score : Nat) : String :=
  if score ≥ 90 then "A+ (Excellent)"
  else if score ≥ 80 then "A (Very Good)"
  else if score ≥ 70 then "B (Good)"
  else if score ≥ 60 then "C (Fair)"
  else if score ≥ 50 then "D (Poor)"
  else "F (Critical)"

theorem grade_eq_components (a s r : ℚ) :
    calculate_performance_grade a s r =
      letterGrade (rtScore a + srScore s + tpScore r) := by
  show letterGrade (0 + rtScore a + srScore s + tpScore r) =
    letterGrade (rtScore a + srScore s + tpScore r)
  rw [Nat.zero_add]

/-- C3: for inputs in the documented ranges, the grade is the letter grade of
the sum of the three band components, with each band inclusive at its lower
bound (the band edges 0.2, 95 and 50 land in the higher-scoring band exactly
as specified, exercised here at the shared edge score 35+35+20 = 90 → A+). -/
theorem C3_grade_components (a s r : ℚ)
    (ha : 0 ≤ a) (hs0 : 0 ≤ s) (hs1 : s ≤ 100) (hr : 0 ≤ r) :
    calculate_performance_grade a s r =
      letterGrade (rtScore a + srScore s + tpScore r) ∧
    rtScore 0.2 = 35 ∧ srScore 95 = 35 ∧ tpScore 50 = 20 ∧
    calculate_performance_grade 0.2 95 50 = "A+ (Excellent)" := by
  refine ⟨grade_eq_components a s r, ?_, ?_, ?_, ?_⟩ <;>
    norm_num [rtScore, srScore, tpScore, calculate_performance_grade]

/-- Witness for C3 at concrete inputs. -/
theorem C3_grade_components_witness :
    calculate_performance_grade 0.1 100 60 =
      letterGrade (rtScore 0.1 + srScore 100 + tpScore 60) :=
  (C3_grade_components 0.1 100 60 (by norm_num) (by norm_num) (by norm_num)
    (by norm_num)).1

/-- Ordinal value of a letter grade: `A+ > A > B > C > D > F`. -/
def gradeOrd (g : String) : Nat :=
  if g = "A+ (Excellent)" then 5
  else if g = "A (Very Good)" then 4
  else if g = "B (Good)" then 3
  else if g = "C (Fair)" then 2
  else if g = "D (Poor)" then 1
  else 0

theorem rtScore_anti (t1 t2 : ℚ) (h : t1 ≤ t2) : rtScore t2 ≤ rtScore t1 := by
  unfold rtScore
  split_ifs <;> first | omega | linarith

theorem gradeOrd_letterGrade (n : Nat) :
    gradeOrd (letterGrade n) =
      (if n ≥ 90 then 5 else if n ≥ 80 then 4 else if n ≥ 70 then 3
       else if n ≥ 60 then 2 else if n ≥ 50 then 1 else 0) := by
  unfold letterGrade gradeOrd
  split_ifs <;> first | rfl | (exfalso; simp_all)

theorem gradeOrd_letterGrade_mono (m n : Nat) (h : m ≤ n) :
    gradeOrd (letterGrade m) ≤ gradeOrd (letterGrade n) := by
  rw [gradeOrd_letterGrade, gradeOrd_letterGrade]
  split_ifs <;> omega

/-- C4: the grade is monotone in latency — with success rate and throughput
fixed, a smaller (nonnegative) average latency never yields a worse letter
grade in the ordinal order `A+ > A > B > C > D > F`. -/
theorem C4_grade_monotone_latency (s r t1 t2 : ℚ)
    (h0 : 0 ≤ t1) (h1 : 0 ≤ t2) (h : t1 ≤ t2) :
    gradeOrd (calculate_performance_grade t2 s r) ≤
      gradeOrd (calculate_performance_grade t1 s r) := by
  rw [grade_eq_components, grade_eq_components]
  apply gradeOrd_letterGrade_mono
  have := rtScore_anti t1 t2 h
  omega

/-- Witness for C4 at concrete inputs: latency 0.1s grades at least as well
as latency 1.2s. -/
theorem C4_grade_monotone_latency_witness :
    gradeOrd (calculate_performance_grade 1.2 100 30) ≤
      gradeOrd (calculate_performance_grade 0.1 100 30) :=
  C4_grade_monotone_latency 100 30 0.1 1.2 (by norm_num) (by norm_num)
    (by norm_num)

/-! ### Ramp-up concurrency schedule (`StressTester.ramp_up_test`) -/

/-- `ramp_step = max_users / ramp_duration` (main.py, line 377), with Python's
true division modelled exactly over `ℚ`. -/
def ramp_step (max_users ramp_duration : Nat) : ℚ :=
  (max_users : ℚ) / (ramp_duration : ℚ)

/-- `current_users = max(1, int(ramp_step * (second + 1)))` (main.py,
line 379): the concurrency level of 0-indexed ramp step `second`; `int` on a
nonnegative value truncates, i.e. floors. -/
def current_users (max_users ramp_duration second : Nat) : Nat :=
  max 1 (⌊ramp_step max_users ramp_duration * ((second : ℚ) + 1)⌋).toNat

/-- C6: for `max_users ≥ 1` and `ramp_duration ≥ 1`, the concurrency level at
0-indexed ramp step `s` is `max(1, floor(max_users / ramp_duration × (s+1)))`,
the schedule is monotonically non-decreasing in `s`, the final step
`s = ramp_duration - 1` uses exactly `max_users`, and the scenario
`max_users = 4, ramp_duration = 4` yields the sequence `[1, 2, 3, 4]`. -/
theorem C6_ramp_schedule (max_users ramp_duration : Nat)
    (hm : 1 ≤ max_users) (hd : 1 ≤ ramp_duration) :
    (∀ s : Nat, current_users max_users ramp_duration s =
      max 1 (⌊(max_users : ℚ) / (ramp_duration : ℚ) *
        ((s : ℚ) + 1)⌋).toNat) ∧
    (∀ s t : Nat, s ≤ t →
      current_users max_users ramp_duration s ≤
        current_users max_users ramp_duration t) ∧
    current_users max_users ramp_duration (ramp_duration - 1) = max_users ∧
    (List.range 4).map (current_users 4 4) = [1, 2, 3, 4] := by
  refine ⟨fun s => rfl, ?_, ?_, ?_⟩
  · intro s t hst
    apply max_le_max le_rfl
    apply Int.toNat_le_toNat
    apply Int.floor_le_floor
    have hstep : 0 ≤ ramp_step max_users ramp_duration := by
      apply div_nonneg <;> positivity
    apply mul_le_mul_of_nonneg_left _ hstep
    have : (s : ℚ) ≤ (t : ℚ) := by exact_mod_cast hst
    linarith
  · have hd0 : (ramp_duration : ℚ) ≠ 0 := by positivity
    have hcast : ((ramp_duration - 1 : Nat) : ℚ) = (ramp_duration : ℚ) - 1 := by
      push_cast [Nat.cast_sub hd]
      ring
    unfold current_users ramp_step
    rw [hcast]
    have harg : (max_users : ℚ) / (ramp_duration : ℚ) *
        ((ramp_duration : ℚ) - 1 + 1) = (max_users : ℚ) := by
      field_simp
    rw [harg]
    rw [Int.floor_natCast, Int.toNat_natCast]
    omega
  · have h4 : ∀ s : Nat, current_users 4 4 s = s + 1 := by
      intro s
      unfold current_users ramp_step
      have harg : ((4 : ℕ) : ℚ) / ((4 : ℕ) : ℚ) * ((s : ℚ) + 1) =
          ((s + 1 : Nat) : ℚ) := by
        push_cast
        norm_num
      rw [harg, Int.floor_natCast, Int.toNat_natCast]
      omega
    rw [show List.range 4 = [0, 1, 2, 3] from rfl]
    simp [h4]

/-- Witness for C6 at concrete inputs: the scenario max_users = 4,
ramp_duration = 4 reaches exactly 4 users at the final step. -/
theorem C6_ramp_schedule_witness : current_users 4 4 (4 - 1) = 4 :=
  (C6_ramp_schedule 4 4 (by norm_num) (by norm_num)).2.2.1

/-! ### Trend analysis (`PerformanceAnalyzer.analyze_performance_trends`) -/

/-- `statistics.mean`, applied by the analyzer only to nonempty lists. -/
def mean (xs : List ℚ) : ℚ := xs.sum / (xs.length : ℚ)

/-- One entry of the analyzer's `bucket_metrics` list (main.py,
lines 141-145). -/
structure BucketMetric where
  avg_response_time : ℚ
  success_rate : ℚ
  count : Nat
deriving DecidableEq, Repr

/-- The dictionary returned by `analyze_performance_trends`: `{}` for no
results, `{"trend": "insufficient_data"}`, or the full metrics record. -/
inductive TrendResult where
  | empty : TrendResult
  | insufficient : TrendResult
  | metrics (response_time_trend success_rate_trend : String)
      (bucket_metrics : List BucketMetric)
      (performance_degradation : Bool) : TrendResult
deriving DecidableEq, Repr

/-- Comparison of `sorted(results, key=lambda x: x.timestamp)`. -/
def tsLE (a b : TestResult) : Bool := decide (a.timestamp ≤ b.timestamp)

/-- Results sorted by timestamp (stable, like Python's `sorted`). -/
def trendSorted (results : List TestResult) : List TestResult :=
  results.mergeSort tsLE

/-- `sorted_results[0].timestamp` (main.py, line 119). -/
def trendStart (results : List TestResult) : ℚ :=
  ((trendSorted results).head?.getD dummyResult).timestamp

/-- `sorted_results[-1].timestamp` (main.py, line 120). -/
def trendEnd (results : List TestResult) : ℚ :=
  ((trendSorted results).getLast?.getD dummyResult).timestamp

/-- `duration = end_time - start_time` (main.py, line 121). -/
def trendDuration (results : List TestResult) : ℚ :=
  trendEnd results - trendStart results

/-- `num_buckets = min(10, int(duration))` (main.py, line 127); `int` on the
nonnegative duration truncates, i.e. floors. -/
def trendNumBuckets (results : List TestResult) : Nat :=
  min 10 (⌊trendDuration results⌋).toNat

/-- `bucket_size = duration / num_buckets` (main.py, line 128). -/
def trendBucketSize (results : List TestResult) : ℚ :=
  trendDuration results / (trendNumBuckets results : ℚ)

/-- `bucket_idx = min(int((timestamp - start_time) / bucket_size),
num_buckets - 1)` (main.py, line 132). -/
def bucketIndex (results : List TestResult) (r : TestResult) : Nat :=
  min (⌊(r.timestamp - trendStart results) / trendBucketSize results⌋).toNat
    (trendNumBuckets results - 1)

/-- The per-bucket partition of the sorted results (main.py, lines 129-133):
bucket `i` holds, in sorted order, the results assigned index `i`. -/
def trendBuckets (results : List TestResult) : List (List TestResult) :=
  (List.range (trendNumBuckets results)).map
    (fun i => (trendSorted results).filter
      (fun r => bucketIndex results r = i))

/-- Per-bucket average response time (main.py, line 139). -/
def bucketAvgRT (b : List TestResult) : ℚ :=
  mean (b.map fun r => r.response_time)

/-- Per-bucket success rate (main.py, line 140): only status code 200 counts
as a success. -/
def bucketSuccessRate (b : List TestResult) : ℚ :=
  ((b.countP fun r => r.status_code = 200 : ℕ) : ℚ) / (b.length : ℚ) * 100

/-- `bucket_metrics` (main.py, lines 136-145): one metrics entry per
non-empty bucket, in bucket order. -/
def trendBucketMetrics (results : List TestResult) : List BucketMetric :=
  ((trendBuckets results).filter fun b => ¬ b.isEmpty).map
    (fun b => ⟨bucketAvgRT b, bucketSuccessRate b, b.length⟩)

/-- Average latency of the first non-empty bucket
(`response_times[0]`, main.py, line 151). -/
def firstBucketRT (results : List TestResult) : ℚ :=
  ((trendBucketMetrics results).head?.getD ⟨0, 0, 0⟩).avg_response_time

/-- Average latency of the last non-empty bucket (`response_times[-1]`). -/
def lastBucketRT (results : List TestResult) : ℚ :=
  ((trendBucketMetrics results).getLast?.getD ⟨0, 0, 0⟩).avg_response_time

/-- Success rate of the first non-empty bucket (`success_rates[0]`). -/
def firstBucketSR (results : List TestResult) : ℚ :=
  ((trendBucketMetrics results).head?.getD ⟨0, 0, 0⟩).success_rate

/-- Success rate of the last non-empty bucket (`success_rates[-1]`). -/
def lastBucketSR (results : List TestResult) : ℚ :=
  ((trendBucketMetrics results).getLast?.getD ⟨0, 0, 0⟩).success_rate

/-- `PerformanceAnalyzer.analyze_performance_trends` (main.py,
lines 109-172), transcribed branch by branch; note the strict comparisons on
lines 156, 158, 162, 164 and 171. -/
def analyze_performance_trends (results : List TestResult) : TrendResult :=
  if results.isEmpty then .empty
  else if trendDuration results < 1 then .insufficient
  else if (trendBucketMetrics results).length < 2 then .insufficient
  else
    let rt_trend :=
      if lastBucketRT results > firstBucketRT results * 1.5 then "degrading"
      else if lastBucketRT results < firstBucketRT results * 0.8 then
        "improving"
      else "stable"
    let sr_trend :=
      if lastBucketSR results < firstBucketSR results - 10 then "degrading"
      else if lastBucketSR results > firstBucketSR results + 10 then
        "improving"
      else "stable"
    .metrics rt_trend sr_trend (trendBucketMetrics results)
      (decide (lastBucketRT results > firstBucketRT results * 2))

theorem analyze_trends_eval (results : List TestResult)
    (h1 : results ≠ []) (h2 : 1 ≤ trendDuration results)
    (h3 : 2 ≤ (trendBucketMetrics results).length) :
    analyze_performance_trends results = .metrics
      (if lastBucketRT results > firstBucketRT results * 1.5 then "degrading"
       else if lastBucketRT results < firstBucketRT results * 0.8 then
         "improving"
       else "stable")
      (if lastBucketSR results < firstBucketSR results - 10 then "degrading"
       else if lastBucketSR results > firstBucketSR results + 10 then
         "improving"
       else "stable")
      (trendBucketMetrics results)
      (decide (lastBucketRT results > firstBucketRT results * 2)) := by
  have hne : results.isEmpty = false := by
    simpa [List.isEmpty_iff] using h1
  unfold analyze_performance_trends
  rw [hne]
  rw [if_neg (by simp), if_neg (not_lt.mpr h2), if_neg (not_lt.mpr h3)]

theorem trendSorted_pair (a b : TestResult)
    (h : a.timestamp ≤ b.timestamp) : trendSorted [a, b] = [a, b] := by
  apply List.mergeSort_of_sorted
  simp [List.pairwise_cons, tsLE, h]

/-- Full evaluation of the bucket pipeline on two results at timestamps 0
and 2: duration 2, two one-second buckets, one result in each. -/
theorem trend_eval_pair (a b : TestResult)
    (ha : a.timestamp = 0) (hb : b.timestamp = 2) :
    trendDuration [a, b] = 2 ∧
    trendBucketMetrics [a, b] =
      [⟨a.response_time, bucketSuccessRate [a], 1⟩,
       ⟨b.response_time, bucketSuccessRate [b], 1⟩] := by
  have hsort : trendSorted [a, b] = [a, b] :=
    trendSorted_pair a b (by rw [ha, hb]; norm_num)
  have hstart : trendStart [a, b] = 0 := by
    rw [trendStart, hsort]
    simpa using ha
  have hend : trendEnd [a, b] = 2 := by
    rw [trendEnd, hsort]
    simpa using hb
  have hdur : trendDuration [a, b] = 2 := by
    rw [trendDuration, hend, hstart]
    norm_num
  have hnb : trendNumBuckets [a, b] = 2 := by
    rw [trendNumBuckets, hdur]
    norm_num
    rfl
  have hbs : trendBucketSize [a, b] = 1 := by
    rw [trendBucketSize, hdur, hnb]
    norm_num
  have hia : bucketIndex [a, b] a = 0 := by
    rw [bucketIndex, hstart, hbs, ha, hnb]
    norm_num
  have hib : bucketIndex [a, b] b = 1 := by
    rw [bucketIndex, hstart, hbs, hb, hnb]
    norm_num
  have hbuckets : trendBuckets [a, b] = [[a], [b]] := by
    rw [trendBuckets, hnb, hsort]
    rw [show List.range 2 = [0, 1] from rfl]
    simp [List.filter_cons, hia, hib]
  refine ⟨hdur, ?_⟩
  rw [trendBucketMetrics, hbuckets]
  simp [bucketAvgRT, mean]

/-- First boundary result of the C5 counterexample: status 200, latency 1,
timestamp 0. -/
def cexA : TestResult := ⟨200, 1, 0, 0, 0, "", 0⟩

/-- Second boundary result of the C5 counterexample: status 200, latency
exactly 1.5 (= 1.5 × the first bucket's average), timestamp 2. -/
def cexB : TestResult := ⟨200, 3/2, 0, 2, 0, "", 0⟩

theorem trend_eval_cex :
    trendDuration [cexA, cexB] = 2 ∧
    trendBucketMetrics [cexA, cexB] = [⟨1, 100, 1⟩, ⟨3/2, 100, 1⟩] := by
  have h := trend_eval_pair cexA cexB rfl rfl
  have hsa : bucketSuccessRate [cexA] = 100 := by
    rw [bucketSuccessRate]
    norm_num [List.countP, List.countP.go, cexA]
  have hsb : bucketSuccessRate [cexB] = 100 := by
    rw [bucketSuccessRate]
    norm_num [List.countP, List.countP.go, cexB]
  refine ⟨h.1, ?_⟩
  rw [h.2, hsa, hsb]
  rfl

/-- Counterexample to C5 as stated: at the boundary where the last non-empty
bucket's average latency equals exactly 1.5× the first's, the claim says the
latency trend is "degrading", but the code's strict `>` comparison
(main.py, line 156) classifies it as "stable". -/
theorem C5_trend_boundary_counterexample :
    lastBucketRT [cexA, cexB] = firstBucketRT [cexA, cexB] * 1.5 ∧
    analyze_performance_trends [cexA, cexB] =
      .metrics "stable" "stable" [⟨1, 100, 1⟩, ⟨3/2, 100, 1⟩] false := by
  obtain ⟨hdur, hbms⟩ := trend_eval_cex
  have hfirst : firstBucketRT [cexA, cexB] = 1 := by
    rw [firstBucketRT, hbms]
    rfl
  have hlast : lastBucketRT [cexA, cexB] = 3/2 := by
    rw [lastBucketRT, hbms]
    rfl
  have hfsr : firstBucketSR [cexA, cexB] = 100 := by
    rw [firstBucketSR, hbms]
    rfl
  have hlsr : lastBucketSR [cexA, cexB] = 100 := by
    rw [lastBucketSR, hbms]
    rfl
  refine ⟨by rw [hfirst, hlast]; norm_num, ?_⟩
  rw [analyze_trends_eval [cexA, cexB] (by simp) (by rw [hdur]; norm_num)
    (by rw [hbms]; norm_num)]
  rw [hfirst, hlast, hfsr, hlsr, hbms]
  rw [if_neg (by norm_num), if_neg (by norm_num), if_neg (by norm_num),
    if_neg (by norm_num)]
  have hdeg : ¬ ((3 : ℚ)/2 > 1 * 2) := by norm_num
  rw [decide_eq_false hdeg]

/-- C5 (amended): under the claim's hypotheses (≥1 result, duration ≥ 1,
≥2 non-empty buckets), the latency trend is "degrading" iff the last
non-empty bucket's average latency is strictly greater than 1.5× the
first's (not ≥), "improving" iff strictly below 0.8× (not ≤), else
"stable"; the success-rate trend is "degrading" iff the last bucket's rate
is strictly below the first's minus 10 (not ≤), "improving" iff strictly
above the first's plus 10 (not ≥), else "stable"; the degradation flag is
set exactly when the last bucket's average latency strictly exceeds 2× the
first's. -/
theorem C5_trend_classification (results : List TestResult)
    (h1 : results ≠ []) (h2 : 1 ≤ trendDuration results)
    (h3 : 2 ≤ (trendBucketMetrics results).length) :
    analyze_performance_trends results = .metrics
      (if lastBucketRT results > firstBucketRT results * 1.5 then "degrading"
       else if lastBucketRT results < firstBucketRT results * 0.8 then
         "improving"
       else "stable")
      (if lastBucketSR results < firstBucketSR results - 10 then "degrading"
       else if lastBucketSR results > firstBucketSR results + 10 then
         "improving"
       else "stable")
      (trendBucketMetrics results)
      (decide (lastBucketRT results > firstBucketRT results * 2)) :=
  analyze_trends_eval results h1 h2 h3

/-- Witness for the amended C5 at a concrete input. -/
theorem C5_trend_classification_witness :
    analyze_performance_trends [cexA, cexB] = .metrics
      (if lastBucketRT [cexA, cexB] > firstBucketRT [cexA, cexB] * 1.5 then
        "degrading"
       else if lastBucketRT [cexA, cexB] < firstBucketRT [cexA, cexB] * 0.8
         then "improving"
       else "stable")
      (if lastBucketSR [cexA, cexB] < firstBucketSR [cexA, cexB] - 10 then
        "degrading"
       else if lastBucketSR [cexA, cexB] > firstBucketSR [cexA, cexB] + 10
         then "improving"
       else "stable")
      (trendBucketMetrics [cexA, cexB])
      (decide (lastBucketRT [cexA, cexB] > firstBucketRT [cexA, cexB] * 2)) :=
  C5_trend_classification [cexA, cexB] (by simp)
    (by rw [trend_eval_cex.1]; norm_num)
    (by rw [trend_eval_cex.2]; norm_num)

/-- First result of the all-404 example run: status 404, latency 1,
timestamp 0. -/
def x404A : TestResult := ⟨404, 1, 0, 0, 0, "", 0⟩

/-- Second result of the all-404 example run: status 404, latency 1,
timestamp 2. -/
def x404B : TestResult := ⟨404, 1, 0, 2, 0, "", 0⟩

theorem recordAll_404_pair :
    (recordAll (emptyReport 0) [x404A, x404B]).successful_requests = 2 ∧
    (recordAll (emptyReport 0) [x404A, x404B]).total_requests = 2 ∧
    (recordAll (emptyReport 0) [x404A, x404B]).failed_requests = 0 ∧
    (recordAll (emptyReport 0) [x404A, x404B]).results = [x404A, x404B] := by
  refine ⟨?_, ?_, ?_, ?_⟩ <;> rfl

theorem trend_eval_404_pair :
    analyze_performance_trends [x404A, x404B] =
      .metrics "stable" "stable" [⟨1, 0, 1⟩, ⟨1, 0, 1⟩] false := by
  obtain ⟨hdur, hbms⟩ := trend_eval_pair x404A x404B rfl rfl
  have hsa : bucketSuccessRate [x404A] = 0 := by
    rw [bucketSuccessRate]
    norm_num [List.countP, List.countP.go, x404A]
  have hsb : bucketSuccessRate [x404B] = 0 := by
    rw [bucketSuccessRate]
    norm_num [List.countP, List.countP.go, x404B]
  have hbms' : trendBucketMetrics [x404A, x404B] = [⟨1, 0, 1⟩, ⟨1, 0, 1⟩] := by
    rw [hbms, hsa, hsb]
    rfl
  have hfirst : firstBucketRT [x404A, x404B] = 1 := by
    rw [firstBucketRT, hbms']
    rfl
  have hlast : lastBucketRT [x404A, x404B] = 1 := by
    rw [lastBucketRT, hbms']
    rfl
  have hfsr : firstBucketSR [x404A, x404B] = 0 := by
    rw [firstBucketSR, hbms']
    rfl
  have hlsr : lastBucketSR [x404A, x404B] = 0 := by
    rw [lastBucketSR, hbms']
    rfl
  rw [analyze_trends_eval [x404A, x404B] (by simp) (by rw [hdur]; norm_num)
    (by rw [hbms']; norm_num)]
  rw [hfirst, hlast, hfsr, hlsr, hbms']
  rw [if_neg (by norm_num), if_neg (by norm_num), if_neg (by norm_num),
    if_neg (by norm_num)]
  have hdeg : ¬ ((1 : ℚ) > 1 * 2) := by norm_num
  rw [decide_eq_false hdeg]

/-- C7: the two success notions are asymmetric and each is exact.
`_update_report` increments `failed_requests` and appends the error string
exactly when the status code is 0, and increments `successful_requests` for
every non-zero status code (4xx/5xx included); the trend analyzer's bucket
success rate counts only status code 200 as success.  Consequently an
all-404 run has aggregator success rate 100% (and zero failures) while its
trend buckets have success rate 0%. -/
theorem C7_success_asymmetry :
    (∀ (rep : TestReport) (res : TestResult),
      (_update_report rep res).failed_requests =
        (if res.status_code = 0 then rep.failed_requests + 1
         else rep.failed_requests) ∧
      (_update_report rep res).errors =
        (if res.status_code = 0 then rep.errors ++ [res.error]
         else rep.errors) ∧
      (_update_report rep res).successful_requests =
        (if res.status_code = 0 then rep.successful_requests
         else rep.successful_requests + 1)) ∧
    (∀ b : List TestResult, bucketSuccessRate b =
      ((b.countP fun r => r.status_code = 200 : ℕ) : ℚ) / (b.length : ℚ)
        * 100) ∧
    ((recordAll (emptyReport 0) [x404A, x404B]).successful_requests :ℚ) /
        ((recordAll (emptyReport 0) [x404A, x404B]).total_requests : ℚ) * 100
      = 100 ∧
    (recordAll (emptyReport 0) [x404A, x404B]).failed_requests = 0 ∧
    analyze_performance_trends
        (recordAll (emptyReport 0) [x404A, x404B]).results =
      .metrics "stable" "stable" [⟨1, 0, 1⟩, ⟨1, 0, 1⟩] false := by
  obtain ⟨hs, ht, hf, hres⟩ := recordAll_404_pair
  refine ⟨?_, fun b => rfl, ?_, hf, ?_⟩
  · intro rep res
    by_cases hz : res.status_code = 0 <;>
      · refine ⟨?_, ?_, ?_⟩ <;> simp [_update_report, hz]
  · rw [hs, ht]
    norm_num
  · rw [hres]
    exact trend_eval_404_pair

/-! ### Substring primitives

Python's `pat in s` is substring containment.  `isPre`/`isSuf`/`isSub` are
the propositional forms; `startsWithB`/`containsSubB` the executable ones. -/

/-- `p` is a prefix of `s`. -/
def isPre (p s : List Char) : Prop := ∃ t, p ++ t = s

/-- `p` is a suffix of `s`. -/
def isSuf (p s : List Char) : Prop := ∃ t, t ++ p = s

/-- `p` is a contiguous substring of `s` (Python's `p in s`). -/
def isSub (p s : List Char) : Prop := ∃ u v, u ++ p ++ v = s

/-- Executable prefix test. -/
def startsWithB : List Char → List Char → Bool
  | [], _ => true
  | _ :: _, [] => false
  | c :: p, d :: s => c == d && startsWithB p s

/-- Executable substring test. -/
def containsSubB (p : List Char) : List Char → Bool
  | [] => startsWithB p []
  | d :: s => startsWithB p (d :: s) || containsSubB p s

theorem isPre_nil (s : List Char) : isPre [] s := ⟨s, rfl⟩

theorem isPre_cons_iff (c : Char) (p : List Char) (d : Char) (s : List Char) :
    isPre (c :: p) (d :: s) ↔ c = d ∧ isPre p s := by
  constructor
  · rintro ⟨t, ht⟩
    injection ht with h1 h2
    exact ⟨h1, t, h2⟩
  · rintro ⟨rfl, t, ht⟩
    exact ⟨t, by rw [← ht]; rfl⟩

theorem startsWithB_iff (p s : List Char) :
    startsWithB p s = true ↔ isPre p s := by
  induction p generalizing s with
  | nil => simp [startsWithB, isPre_nil]
  | cons c p ih =>
      cases s with
      | nil =>
          simp only [startsWithB, Bool.false_eq_true, false_iff]
          rintro ⟨t, ht⟩
          exact absurd ht (by simp)
      | cons d s =>
          simp [startsWithB, isPre_cons_iff, ih, Bool.and_eq_true, beq_iff_eq]

theorem isSub_iff_exists_isPre (p s : List Char) :
    isSub p s ↔ ∃ u t, u ++ t = s ∧ isPre p t := by
  constructor
  · rintro ⟨u, v, huv⟩
    exact ⟨u, p ++ v, by simpa using huv, v, rfl⟩
  · rintro ⟨u, t, hut, v, hv⟩
    exact ⟨u, v, by rw [← hut, ← hv]; simp⟩

theorem containsSubB_iff (p s : List Char) :
    containsSubB p s = true ↔ isSub p s := by
  induction s with
  | nil =>
      simp only [containsSubB, startsWithB_iff]
      constructor
      · rintro ⟨t, ht⟩
        exact ⟨[], t, ht⟩
      · rintro ⟨u, v, huv⟩
        have hu : u = [] := by
          cases u with
          | nil => rfl
          | cons a u => exact absurd huv (by simp)
        subst hu
        exact ⟨v, huv⟩
  | cons d s ih =>
      simp only [containsSubB, Bool.or_eq_true, startsWithB_iff, ih]
      constructor
      · rintro (⟨t, ht⟩ | ⟨u, v, huv⟩)
        · exact ⟨[], t, ht⟩
        · exact ⟨d :: u, v, by rw [← huv]; rfl⟩
      · rintro ⟨u, v, huv⟩
        cases u with
        | nil => exact Or.inl ⟨v, by simpa using huv⟩
        | cons a u =>
            injection huv with h1 h2
            exact Or.inr ⟨u, v, h2⟩

instance (p s : List Char) : Decidable (isSub p s) :=
  decidable_of_iff (containsSubB p s = true) (containsSubB_iff p s)

theorem isSub_mem (p s : List Char) (h : isSub p s) (c : Char) (hc : c ∈ p) :
    c ∈ s := by
  obtain ⟨u, v, rfl⟩ := h
  simp [hc]

theorem isSub_extend (p x w z : List Char) (h : isSub p x) :
    isSub p (w ++ x ++ z) := by
  obtain ⟨u, v, rfl⟩ := h
  exact ⟨w ++ u, v ++ z, by simp⟩

theorem isSub_nil (p : List Char) (h : isSub p []) : p = [] := by
  obtain ⟨u, v, huv⟩ := h
  cases u <;> cases p <;> simp_all

theorem isSub_singleton (p : List Char) (a : Char) (hp : p ≠ [])
    (h : isSub p [a]) : p = [a] := by
  obtain ⟨u, v, huv⟩ := h
  cases u with
  | nil =>
      cases p with
      | nil => exact absurd rfl hp
      | cons b p' =>
          injection huv with h1 h2
          subst h1
          have : p' = [] := by
            cases p' with
            | nil => rfl
            | cons c p'' => exact absurd h2 (by simp)
          rw [this]
  | cons b u' =>
      injection huv with h1 h2
      exfalso
      simp at h2
      exact hp h2.2.1

theorem isPre_append_cases (p x y : List Char) (h : isPre p (x ++ y)) :
    isPre p x ∨ ∃ p2, p = x ++ p2 ∧ isPre p2 y := by
  induction x generalizing p with
  | nil => exact Or.inr ⟨p, rfl, h⟩
  | cons c x' ih =>
      cases p with
      | nil => exact Or.inl (isPre_nil _)
      | cons d p' =>
          rw [List.cons_append, isPre_cons_iff] at h
          obtain ⟨rfl, h'⟩ := h
          rcases ih p' h' with h1 | ⟨p2, rfl, h2⟩
          · exact Or.inl ((isPre_cons_iff _ _ _ _).mpr ⟨rfl, h1⟩)
          · exact Or.inr ⟨p2, rfl, h2⟩

theorem isSuf_cons_cases (p : List Char) (a : Char) (s : List Char)
    (h : isSuf p (a :: s)) : p = a :: s ∨ isSuf p s := by
  obtain ⟨w, hw⟩ := h
  cases w with
  | nil => exact Or.inl (by simpa using hw)
  | cons b w' =>
      injection hw with h1 h2
      exact Or.inr ⟨w', h2⟩

theorem isSuf_mem (p s : List Char) (h : isSuf p s) (c : Char) (hc : c ∈ p) :
    c ∈ s := by
  obtain ⟨w, rfl⟩ := h
  simp [hc]

/-- Three-way decomposition of a substring occurrence across an append:
the occurrence lies in `x`, lies in `y`, or straddles the boundary. -/
theorem isSub_append_split (p x y : List Char) (h : isSub p (x ++ y)) :
    isSub p x ∨ isSub p y ∨
    ∃ p1 p2, p = p1 ++ p2 ∧ p1 ≠ [] ∧ p2 ≠ [] ∧ isSuf p1 x ∧ isPre p2 y := by
  rw [isSub_iff_exists_isPre] at h
  obtain ⟨u, t, hut, hpre⟩ := h
  have hdrop : t = (x ++ y).drop u.length := by
    rw [← hut]
    simp
  by_cases hlen : u.length ≤ x.length
  · have hx : (x ++ y).drop u.length = x.drop u.length ++ y := by
      rw [List.drop_append_eq_append_drop]
      have : u.length - x.length = 0 := by omega
      rw [this]
      simp
    rw [hdrop, hx] at hpre
    rcases isPre_append_cases p _ y hpre with h1 | ⟨p2, hp2, h2⟩
    · left
      rw [isSub_iff_exists_isPre]
      exact ⟨x.take u.length, x.drop u.length, by simp, h1⟩
    · by_cases hp2nil : p2 = []
      · subst hp2nil
        left
        rw [List.append_nil] at hp2
        subst hp2
        exact ⟨x.take u.length, [], by simp⟩
      · by_cases hxd : x.drop u.length = []
        · right; left
          rw [hxd] at hp2
          simp at hp2
          subst hp2
          obtain ⟨t2, ht2⟩ := h2
          exact ⟨[], t2, by simpa using ht2⟩
        · right; right
          exact ⟨x.drop u.length, p2, hp2, hxd, hp2nil,
            ⟨x.take u.length, by simp⟩, h2⟩
  · right; left
    have hx : (x ++ y).drop u.length = y.drop (u.length - x.length) := by
      rw [List.drop_append_eq_append_drop]
      have : x.drop u.length = [] := by
        apply List.drop_eq_nil_of_le
        omega
      rw [this]
      simp
    rw [hdrop, hx] at hpre
    rw [isSub_iff_exists_isPre]
    exact ⟨y.take (u.length - x.length), y.drop (u.length - x.length),
      by simp, hpre⟩

/-- Strip a leading character that does not occur in the pattern. -/
theorem isSub_of_cons (p : List Char) (a : Char) (s : List Char)
    (hp : p ≠ []) (ha : a ∉ p) (h : isSub p (a :: s)) : isSub p s := by
  obtain ⟨u, v, huv⟩ := h
  cases u with
  | nil =>
      cases p with
      | nil => exact absurd rfl hp
      | cons b p' =>
          injection huv with h1 h2
          subst h1
          exact absurd (List.mem_cons_self _ _) ha
  | cons b u' =>
      injection huv with h1 h2
      exact ⟨u', v, h2⟩

/-- Strip a trailing character that does not occur in the pattern. -/
theorem isSub_of_concat (p : List Char) (a : Char) (s : List Char)
    (hp : p ≠ []) (ha : a ∉ p) (h : isSub p (s ++ [a])) : isSub p s := by
  rcases isSub_append_split p s [a] h with h1 | h2 | ⟨p1, p2, hp12, hn1, hn2, hs1, hs2⟩
  · exact h1
  · exact absurd (by rw [isSub_singleton p a hp h2]; exact List.mem_singleton_self a) ha
  · exfalso
    obtain ⟨t2, ht2⟩ := hs2
    cases p2 with
    | nil => exact hn2 rfl
    | cons c p2' =>
        injection ht2 with h1 h2
        subst h1
        exact ha (by rw [hp12]; simp)

/-! ### Python string/dict rendering (`str(error_types)`)

`identify_bottlenecks` tests `"Connection" in str(error_types)` where
`error_types` is a `Dict[str, int]`.  `str` renders `{'key': count, ...}`,
calling `repr` on each key; `repr` renders printable characters directly and
everything else as an escape sequence starting with a backslash. -/

def backslashChar : Char := Char.ofNat 92

def squoteChar : Char := Char.ofNat 39

def dquoteChar : Char := Char.ofNat 34

def lbraceChar : Char := Char.ofNat 123

def rbraceChar : Char := Char.ofNat 125

/-- Python `repr`'s quote choice: single quotes unless the string contains a
single quote but no double quote. -/
def chooseQuote (s : String) : Char :=
  if squoteChar ∈ s.data ∧ ¬ dquoteChar ∈ s.data then dquoteChar
  else squoteChar

def hexDigitChar (n : Nat) : Char :=
  if n < 10 then Char.ofNat (48 + n) else Char.ofNat (87 + n)

/-- Rendering of one character inside a `repr`ed string quoted with `q`:
backslashes, the active quote, and control characters are escaped (the
escape begins with a backslash), all other characters are rendered
directly.  (Python also escapes some non-printable characters above
U+007F; that refinement has no bearing on occurrences of the all-ASCII
pattern `"Connection"`.) -/
def renderChar (q c : Char) : List Char :=
  if c = backslashChar then [backslashChar, backslashChar]
  else if c = q then [backslashChar, q]
  else if c = Char.ofNat 10 then [backslashChar, 'n']
  else if c = Char.ofNat 9 then [backslashChar, 't']
  else if c = Char.ofNat 13 then [backslashChar, 'r']
  else if c.toNat < 32 ∨ c.toNat = 127 then
    [backslashChar, 'x', hexDigitChar (c.toNat / 16), hexDigitChar (c.toNat % 16)]
  else [c]

/-- The characters that can appear in the tail of an escape sequence. -/
def escapeTailChars : List Char :=
  [backslashChar, squoteChar, dquoteChar] ++ "ntrx0123456789abcdef".toList

theorem hexDigitChar_mem_escapeTail :
    ∀ n < 16, hexDigitChar n ∈ escapeTailChars := by decide

/-- Every rendered character is either itself or a backslash-headed escape
whose tail stays inside `escapeTailChars`. -/
theorem renderChar_shape (q c : Char)
    (hq : q = squoteChar ∨ q = dquoteChar) :
    renderChar q c = [c] ∨
    ∃ t, renderChar q c = backslashChar :: t ∧
      ∀ d ∈ t, d ∈ escapeTailChars := by
  unfold renderChar
  split_ifs with h1 h2 h3 h4 h5 h6
  · exact Or.inr ⟨[backslashChar], rfl, by intro d hd; simp at hd; subst hd; decide⟩
  · refine Or.inr ⟨[q], rfl, ?_⟩
    intro d hd
    simp at hd
    subst hd
    rcases hq with rfl | rfl <;> decide
  · exact Or.inr ⟨['n'], rfl, by intro d hd; simp at hd; subst hd; decide⟩
  · exact Or.inr ⟨['t'], rfl, by intro d hd; simp at hd; subst hd; decide⟩
  · exact Or.inr ⟨['r'], rfl, by intro d hd; simp at hd; subst hd; decide⟩
  · refine Or.inr ⟨['x', hexDigitChar (c.toNat / 16), hexDigitChar (c.toNat % 16)],
      rfl, ?_⟩
    intro d hd
    simp at hd
    rcases hd with rfl | rfl | rfl
    · decide
    · exact hexDigitChar_mem_escapeTail _ (by omega)
    · exact hexDigitChar_mem_escapeTail _ (Nat.mod_lt _ (by omega))
  · exact Or.inl rfl

/-- If the pattern contains no backslash and is a prefix of the rendering of
`cs`, it is a prefix of `cs` itself (an escape would put a backslash at the
first divergence). -/
theorem isPre_flatten_render (q : Char) (hq : q = squoteChar ∨ q = dquoteChar)
    (p : List Char) (hb : backslashChar ∉ p) :
    ∀ cs : List Char, p ≠ [] →
      isPre p ((cs.map (renderChar q)).flatten) → isPre p cs := by
  intro cs
  induction cs generalizing p with
  | nil =>
      intro hp h
      obtain ⟨t, ht⟩ := h
      simp at ht
      exact absurd ht.1 hp
  | cons c cs' ih =>
      intro hp h
      rw [List.map_cons, List.flatten_cons] at h
      rcases renderChar_shape q c hq with hdir | ⟨t, hesc, htail⟩
      · rw [hdir] at h
        cases p with
        | nil => exact absurd rfl hp
        | cons d p' =>
            rw [List.singleton_append, isPre_cons_iff] at h
            obtain ⟨rfl, h'⟩ := h
            by_cases hp' : p' = []
            · subst hp'
              exact ⟨cs', rfl⟩
            · have hb' : backslashChar ∉ p' := fun hx => hb (by simp [hx])
              have := ih p' hb' hp' h'
              rw [isPre_cons_iff]
              exact ⟨rfl, this⟩
      · rw [hesc] at h
        cases p with
        | nil => exact absurd rfl hp
        | cons d p' =>
            rw [List.cons_append, isPre_cons_iff] at h
            obtain ⟨rfl, _⟩ := h
            exact absurd (List.mem_cons_self _ _) hb

/-- If the pattern contains no backslash, its head is not an escape-tail
character, and it occurs in the rendering of `cs`, then it occurs in `cs`
itself: the detour through `repr`'s escaping loses no occurrence. -/
theorem isSub_flatten_render (q : Char) (hq : q = squoteChar ∨ q = dquoteChar)
    (hd : Char) (ptl : List Char) (hb : backslashChar ∉ hd :: ptl)
    (hhd : hd ∉ escapeTailChars) :
    ∀ cs : List Char,
      isSub (hd :: ptl) ((cs.map (renderChar q)).flatten) →
      isSub (hd :: ptl) cs := by
  intro cs
  induction cs with
  | nil =>
      intro h
      simp at h
      exact absurd (isSub_nil _ h) (by simp)
  | cons c cs' ih =>
      intro h
      rw [List.map_cons, List.flatten_cons] at h
      rcases isSub_append_split _ _ _ h with h1 | h2 | ⟨p1, p2, hp12, hn1, hn2, hs1, hs2⟩
      · rcases renderChar_shape q c hq with hdir | ⟨t, hesc, htail⟩
        · rw [hdir] at h1
          have := isSub_singleton _ c (by simp) h1
          rw [this]
          exact ⟨[], cs', rfl⟩
        · rw [hesc] at h1
          have h1' := isSub_of_cons _ backslashChar t (by simp) hb h1
          have : hd ∈ t := isSub_mem _ _ h1' hd (List.mem_cons_self _ _)
          exact absurd (htail hd this) hhd
      · have := ih h2
        obtain ⟨u, v, huv⟩ := this
        exact ⟨c :: u, v, by rw [← huv]; rfl⟩
      · rcases renderChar_shape q c hq with hdir | ⟨t, hesc, htail⟩
        · rw [hdir] at hs1
          have hw' : p1 = [c] := by
            rcases isSuf_cons_cases p1 c [] hs1 with h' | h'
            · exact h'
            · exfalso
              obtain ⟨w, hw⟩ := h'
              rw [List.append_eq_nil] at hw
              exact hn1 hw.2
          subst hw'
          rw [List.singleton_append] at hp12
          injection hp12 with hhd2 htl2
          subst hhd2
          subst htl2
          have hb' : backslashChar ∉ ptl :=
            fun hx => hb (List.mem_cons_of_mem _ hx)
          have hpre := isPre_flatten_render q hq ptl hb' cs' hn2 hs2
          obtain ⟨t2, ht2⟩ := hpre
          exact ⟨[], t2, by rw [← ht2]; rfl⟩
        · exfalso
          rw [hesc] at hs1
          rcases isSuf_cons_cases _ _ _ hs1 with heq | hsuf
          · have hmem : backslashChar ∈ p1 := by rw [heq]; simp
            exact hb (by rw [hp12]; simp [hmem])
          · have hh1 : hd ∈ p1 := by
              cases p1 with
              | nil => exact absurd rfl hn1
              | cons a p1' =>
                  rw [List.cons_append] at hp12
                  injection hp12 with h1 _
                  rw [h1]
                  exact List.mem_cons_self _ _
            have : hd ∈ t := isSuf_mem _ _ hsuf hd hh1
            exact hhd (htail hd this)

/-- If every pattern character renders directly, an occurrence in `cs`
yields an occurrence in the rendering: escaping adds no spurious loss. -/
theorem isSub_flatten_render_of_sub (q : Char) (p cs : List Char)
    (hall : ∀ c ∈ p, renderChar q c = [c]) (h : isSub p cs) :
    isSub p ((cs.map (renderChar q)).flatten) := by
  obtain ⟨u, v, rfl⟩ := h
  rw [List.map_append, List.map_append, List.flatten_append, List.flatten_append]
  have hp : ((p.map (renderChar q)).flatten) = p := by
    induction p with
    | nil => rfl
    | cons c p' ih =>
        rw [List.map_cons, List.flatten_cons, hall c (List.mem_cons_self _ _),
          ih (fun d hd => hall d (List.mem_cons_of_mem _ hd))]
        rfl
  rw [hp]
  exact ⟨(u.map (renderChar q)).flatten, (v.map (renderChar q)).flatten, rfl⟩

/-- Body of Python `repr` of a string under quote `q`: each character
rendered in turn. -/
def pyReprBody (q : Char) (s : String) : List Char :=
  (s.data.map (renderChar q)).flatten

/-- Python `repr` of a string: the chosen quote, the escaped body, the
closing quote. -/
def pyRepr (s : String) : List Char :=
  chooseQuote s :: pyReprBody (chooseQuote s) s ++ [chooseQuote s]

def digitChar (d : Nat) : Char := Char.ofNat (48 + d)

/-- Python `str` of a nonnegative integer: decimal digits. -/
def natDigits (n : Nat) : List Char :=
  if h : n < 10 then [digitChar n]
  else natDigits (n / 10) ++ [digitChar (n % 10)]
termination_by n
decreasing_by exact Nat.div_lt_self (by omega) (by omega)

theorem digitChar_toNat (d : Nat) (h : d < 10) :
    (digitChar d).toNat = 48 + d := by
  revert h
  revert d
  decide

theorem natDigits_mem (n : Nat) (c : Char) (hc : c ∈ natDigits n) :
    48 ≤ c.toNat ∧ c.toNat ≤ 57 := by
  induction n using Nat.strong_induction_on with
  | _ n ih =>
      rw [natDigits] at hc
      split_ifs at hc with h
      · simp at hc
        subst hc
        rw [digitChar_toNat n h]
        omega
      · rw [List.mem_append] at hc
        rcases hc with hc | hc
        · exact ih (n / 10) (Nat.div_lt_self (by omega) (by omega)) hc
        · simp at hc
          subst hc
          rw [digitChar_toNat _ (Nat.mod_lt _ (by omega))]
          have := Nat.mod_lt n (show 0 < 10 by omega)
          omega

/-- One `'key': count` entry of the rendered dictionary. -/
def renderEntry (k : String) (v : Nat) : List Char :=
  pyRepr k ++ ':' :: ' ' :: natDigits v

/-- The comma-separated entry list of the rendered dictionary. -/
def renderEntries : List (String × Nat) → List Char
  | [] => []
  | [(k, v)] => renderEntry k v
  | (k, v) :: e :: rest => renderEntry k v ++ ',' :: ' ' :: renderEntries (e :: rest)

/-- Python `str` of the `error_types` dictionary: `{}` when empty, else
`{'k1': v1, 'k2': v2, ...}`. -/
def strOfErrorTypes (d : List (String × Nat)) : List Char :=
  lbraceChar :: renderEntries d ++ [rbraceChar]

/-- `error_types` (main.py, lines 208-210): per-error occurrence counts, in
insertion order of first occurrence. -/
def errorTypes (errors : List String) : List (String × Nat) :=
  errors.foldl bumpKey []

/-- The pattern the analyzer looks for: `"Connection"`. -/
def connectionPat : List Char := "Connection".toList

theorem connectionPat_eq : connectionPat = 'C' :: "onnection".toList := rfl

theorem connectionPat_ne_nil : connectionPat ≠ [] := by decide

theorem backslash_not_mem_connectionPat : backslashChar ∉ connectionPat := by
  decide

theorem head_connectionPat_not_escapeTail : 'C' ∉ escapeTailChars := by decide

theorem connectionPat_renders_directly (q : Char)
    (hq : q = squoteChar ∨ q = dquoteChar) :
    ∀ c ∈ connectionPat, renderChar q c = [c] := by
  rcases hq with rfl | rfl <;> decide

theorem chooseQuote_cases (s : String) :
    chooseQuote s = squoteChar ∨ chooseQuote s = dquoteChar := by
  unfold chooseQuote
  split_ifs <;> simp

theorem quote_not_mem_connectionPat (s : String) :
    chooseQuote s ∉ connectionPat := by
  rcases chooseQuote_cases s with h | h <;> rw [h] <;> decide

/-- The pattern occurs in `repr(k)` exactly when it occurs in `k`. -/
theorem isSub_pyRepr_iff (k : String) :
    isSub connectionPat (pyRepr k) ↔ isSub connectionPat k.data := by
  constructor
  · intro h
    rw [pyRepr] at h
    have h1 := isSub_of_cons _ _ _ connectionPat_ne_nil
      (quote_not_mem_connectionPat k) h
    have h2 := isSub_of_concat _ _ _ connectionPat_ne_nil
      (quote_not_mem_connectionPat k) (by simpa using h1)
    rw [connectionPat_eq] at h2 ⊢
    exact isSub_flatten_render _ (chooseQuote_cases k) _ _
      (by rw [← connectionPat_eq]; exact backslash_not_mem_connectionPat)
      head_connectionPat_not_escapeTail k.data h2
  · intro h
    have hbody : isSub connectionPat (pyReprBody (chooseQuote k) k) :=
      isSub_flatten_render_of_sub _ _ _
        (connectionPat_renders_directly _ (chooseQuote_cases k)) h
    rw [pyRepr]
    obtain ⟨u, v, huv⟩ := hbody
    exact ⟨chooseQuote k :: u, v ++ [chooseQuote k], by
      rw [← huv]
      simp⟩

theorem colon_space_digits_no_pat (v : Nat) (p1 : List Char)
    (hh : 'C' ∈ p1) (h : isSub p1 (':' :: ' ' :: natDigits v)) : False := by
  have hc := isSub_mem _ _ h 'C' hh
  rcases List.mem_cons.mp hc with hc1 | hc
  · exact absurd hc1 (by decide)
  rcases List.mem_cons.mp hc with hc2 | hc
  · exact absurd hc2 (by decide)
  have := natDigits_mem v 'C' hc
  revert this
  decide

/-- The pattern occurs in a rendered entry exactly when it occurs in the
entry's key. -/
theorem isSub_renderEntry_iff (k : String) (v : Nat) :
    isSub connectionPat (renderEntry k v) ↔ isSub connectionPat k.data := by
  constructor
  · intro h
    rw [renderEntry] at h
    rcases isSub_append_split _ _ _ h with h1 | h2 | ⟨p1, p2, hp12, hn1, hn2, _, hs2⟩
    · exact (isSub_pyRepr_iff k).mp h1
    · exact absurd h2 (fun hx => colon_space_digits_no_pat v _ (by decide) hx)
    · exfalso
      obtain ⟨t2, ht2⟩ := hs2
      have hcolon : ':' ∈ p2 := by
        cases p2 with
        | nil => exact absurd rfl hn2
        | cons a p2' =>
            injection ht2 with h1 _
            rw [h1]
            exact List.mem_cons_self _ _
      have : ':' ∈ connectionPat := by rw [hp12]; simp [hcolon]
      exact absurd this (by decide)
  · intro h
    have := (isSub_pyRepr_iff k).mpr h
    obtain ⟨u, v', huv⟩ := this
    exact ⟨u, v' ++ ':' :: ' ' :: natDigits v, by rw [renderEntry, ← huv]; simp⟩

/-- The pattern occurs in the rendered entry list exactly when it occurs in
some key. -/
theorem isSub_renderEntries_iff (d : List (String × Nat)) :
    isSub connectionPat (renderEntries d) ↔
      ∃ k v, (k, v) ∈ d ∧ isSub connectionPat k.data := by
  induction d with
  | nil =>
      simp only [renderEntries]
      constructor
      · intro h
        exact absurd (isSub_nil _ h) connectionPat_ne_nil
      · rintro ⟨k, v, hmem, _⟩
        exact absurd hmem (by simp)
  | cons e rest ih =>
      obtain ⟨k, v⟩ := e
      cases rest with
      | nil =>
          simp only [renderEntries]
          rw [isSub_renderEntry_iff]
          constructor
          · intro h
            exact ⟨k, v, by simp, h⟩
          · rintro ⟨k', v', hmem, h⟩
            simp at hmem
            obtain ⟨rfl, rfl⟩ := hmem
            exact h
      | cons e' rest' =>
          rw [renderEntries]
          constructor
          · intro h
            rcases isSub_append_split _ _ _ h with h1 | h2 | ⟨p1, p2, hp12, hn1, hn2, _, hs2⟩
            · exact ⟨k, v, by simp, (isSub_renderEntry_iff k v).mp h1⟩
            · have h2' := isSub_of_cons _ _ _ connectionPat_ne_nil (by decide) h2
              have h2'' := isSub_of_cons _ _ _ connectionPat_ne_nil (by decide) h2'
              obtain ⟨k', v', hmem, hsub⟩ := ih.mp h2''
              exact ⟨k', v', by simp [hmem], hsub⟩
            · exfalso
              obtain ⟨t2, ht2⟩ := hs2
              have hcomma : ',' ∈ p2 := by
                cases p2 with
                | nil => exact absurd rfl hn2
                | cons a p2' =>
                    injection ht2 with h1 _
                    rw [h1]
                    exact List.mem_cons_self _ _
              have : ',' ∈ connectionPat := by rw [hp12]; simp [hcomma]
              exact absurd this (by decide)
          · rintro ⟨k', v', hmem, hsub⟩
            simp only [List.mem_cons] at hmem
            rcases hmem with heq | hmem
            · rw [Prod.mk.injEq] at heq
              obtain ⟨rfl, rfl⟩ := heq
              have := (isSub_renderEntry_iff k' v').mpr hsub
              obtain ⟨u, w, huw⟩ := this
              exact ⟨u, w ++ ',' :: ' ' :: renderEntries (e' :: rest'), by
                rw [← huw]
                simp⟩
            · have := ih.mpr ⟨k', v', List.mem_cons.mpr hmem, hsub⟩
              obtain ⟨u, w, huw⟩ := this
              exact ⟨renderEntry k v ++ ',' :: ' ' :: u, w, by
                rw [← huw]
                simp⟩

theorem mem_bumpKey_iff (d : List (String × Nat)) (k k' : String) :
    (∃ v, (k, v) ∈ bumpKey d k') ↔ (∃ v, (k, v) ∈ d) ∨ k = k' := by
  induction d with
  | nil => simp [bumpKey]
  | cons e rest ih =>
      obtain ⟨k0, v0⟩ := e
      by_cases h : k0 = k'
      · subst h
        simp only [bumpKey, if_pos rfl]
        constructor
        · rintro ⟨v, hv⟩
          rcases List.mem_cons.mp hv with heq | hmem
          · rw [Prod.mk.injEq] at heq
            exact Or.inr heq.1
          · exact Or.inl ⟨v, List.mem_cons.mpr (Or.inr hmem)⟩
        · rintro (⟨v, hv⟩ | rfl)
          · rcases List.mem_cons.mp hv with heq | hmem
            · rw [Prod.mk.injEq] at heq
              exact ⟨v0 + 1, List.mem_cons.mpr (Or.inl (by rw [heq.1]))⟩
            · exact ⟨v, List.mem_cons.mpr (Or.inr hmem)⟩
          · exact ⟨v0 + 1, List.mem_cons.mpr (Or.inl rfl)⟩
      · simp only [bumpKey, if_neg h]
        constructor
        · rintro ⟨v, hv⟩
          rcases List.mem_cons.mp hv with heq | hmem
          · exact Or.inl ⟨v, List.mem_cons.mpr (Or.inl heq)⟩
          · rcases ih.mp ⟨v, hmem⟩ with ⟨v', hv'⟩ | rfl
            · exact Or.inl ⟨v', List.mem_cons.mpr (Or.inr hv')⟩
            · exact Or.inr rfl
        · rintro (⟨v, hv⟩ | rfl)
          · rcases List.mem_cons.mp hv with heq | hmem
            · exact ⟨v, List.mem_cons.mpr (Or.inl heq)⟩
            · obtain ⟨v', hv'⟩ := ih.mpr (Or.inl ⟨v, hmem⟩)
              exact ⟨v', List.mem_cons.mpr (Or.inr hv')⟩
          · obtain ⟨v', hv'⟩ := ih.mpr (Or.inr rfl)
            exact ⟨v', List.mem_cons.mpr (Or.inr hv')⟩

theorem mem_errorTypes_foldl (es : List String) (d : List (String × Nat))
    (k : String) :
    (∃ v, (k, v) ∈ es.foldl bumpKey d) ↔ (∃ v, (k, v) ∈ d) ∨ k ∈ es := by
  induction es generalizing d with
  | nil => simp
  | cons e es' ih =>
      rw [List.foldl_cons, ih, mem_bumpKey_iff]
      simp [or_assoc]

/-- Keys of `error_types` are exactly the recorded error strings. -/
theorem mem_errorTypes (errors : List String) (k : String) :
    (∃ v, (k, v) ∈ errorTypes errors) ↔ k ∈ errors := by
  rw [errorTypes, mem_errorTypes_foldl]
  simp

/-- The analyzer's check `"Connection" in str(error_types)` holds exactly
when some recorded error string contains `"Connection"`: the rendering
detour neither adds nor loses occurrences. -/
theorem connection_check_iff (errors : List String) :
    containsSubB connectionPat (strOfErrorTypes (errorTypes errors)) = true ↔
      ∃ e ∈ errors, isSub connectionPat e.data := by
  rw [containsSubB_iff, strOfErrorTypes]
  constructor
  · intro h
    have h1 := isSub_of_cons connectionPat lbraceChar
      (renderEntries (errorTypes errors) ++ [rbraceChar])
      connectionPat_ne_nil (by decide) h
    have h2 := isSub_of_concat connectionPat rbraceChar
      (renderEntries (errorTypes errors))
      connectionPat_ne_nil (by decide) (by simpa using h1)
    obtain ⟨k, v, hmem, hsub⟩ := (isSub_renderEntries_iff _).mp h2
    exact ⟨k, (mem_errorTypes errors k).mp ⟨v, hmem⟩, hsub⟩
  · rintro ⟨e, hmem, hsub⟩
    obtain ⟨v, hv⟩ := (mem_errorTypes errors e).mpr hmem
    have := (isSub_renderEntries_iff (errorTypes errors)).mpr ⟨e, v, hv, hsub⟩
    obtain ⟨u, w, huw⟩ := this
    exact ⟨lbraceChar :: u, w ++ [rbraceChar], by rw [← huw]; simp⟩

/-! ### Bottlenecks and capacity (`identify_bottlenecks`,
`capacity_recommendations`) -/

/-- Sample variance, the square of `statistics.stdev` (denominator
`n - 1`). -/
def sampleVariance (xs : List ℚ) : ℚ :=
  ((xs.map fun x => (x - mean xs) ^ 2).sum) / ((xs.length : ℚ) - 1)

/-- The check `statistics.stdev(xs) > mean(xs) * 0.5` (main.py, line 204),
expressed without square roots: a nonnegative square root exceeds a bound
iff the bound is negative or its square is below the variance. -/
def stdevGtHalfMean (xs : List ℚ) : Bool :=
  decide (mean xs * 0.5 < 0) ||
    decide ((mean xs * 0.5) ^ 2 < sampleVariance xs)

/-- `PerformanceAnalyzer.identify_bottlenecks` (main.py, lines 174-218),
check by check and in emission order. -/
def identify_bottlenecks (report : TestReport) : List String :=
  if report.response_times.isEmpty then ["No response data available"]
  else
    let avg_response_time := mean report.response_times
    let success_rate := (report.successful_requests : ℚ) /
      (report.total_requests : ℚ) * 100
    let b1 : List String :=
      if avg_response_time > 2.0 then
        ["HIGH_RESPONSE_TIME: Server is very slow (>2s average)"]
      else if avg_response_time > 1.0 then
        ["MODERATE_RESPONSE_TIME: Server response time is concerning (>1s average)"]
      else []
    let b2 : List String :=
      if success_rate < 90 then
        ["LOW_SUCCESS_RATE: High failure rate indicates server overload"]
      else if success_rate < 95 then
        ["MODERATE_FAILURES: Some requests failing under load"]
      else []
    let b3 : List String :=
      if report.requests_per_second < 5 then
        ["LOW_THROUGHPUT: Server can't handle concurrent requests efficiently"]
      else []
    let b4 : List String :=
      if report.response_times.length > 1 ∧
          stdevGtHalfMean report.response_times = true then
        ["HIGH_VARIABILITY: Response times are inconsistent"]
      else []
    let b5 : List String :=
      if containsSubB connectionPat
          (strOfErrorTypes (errorTypes report.errors)) then
        ["CONNECTION_ISSUES: Server rejecting connections"]
      else []
    let bottlenecks := b1 ++ b2 ++ b3 ++ b4 ++ b5
    if bottlenecks.isEmpty then
      ["NO_MAJOR_BOTTLENECKS: System performing within acceptable limits"]
    else bottlenecks

/-- The dictionary returned by `capacity_recommendations`: the no-data error
mapping, or the three recommendation collections. -/
inductive CapacityResult where
  | err (msg : String) : CapacityResult
  | recs (current_capacity : List (String × String))
      (scaling_recommendations : List String)
      (optimization_suggestions : List String) : CapacityResult
deriving DecidableEq, Repr

/-- `PerformanceAnalyzer.capacity_recommendations` (main.py, lines 220-273),
transcribed branch by branch; numbers are interpolated into the capacity
strings with `toString`. -/
def capacity_recommendations (report : TestReport) (test_type : String) :
    CapacityResult :=
  if report.response_times.isEmpty then .err "No data available"
  else
    let avg_response_time := mean report.response_times
    let success_rate := (report.successful_requests : ℚ) /
      (report.total_requests : ℚ) * 100
    let concurrent_users := report.total_requests
    let current_capacity : List (String × String) :=
      if test_type = "concurrent" then
        if success_rate ≥ 95 ∧ avg_response_time < 1.0 then
          [("concurrent_users",
            "Can handle " ++ toString concurrent_users ++ " concurrent users well"),
           ("estimated_max",
            "Likely can handle " ++ toString (concurrent_users * 2) ++ "-" ++
              toString (concurrent_users * 3) ++ " users")]
        else if success_rate ≥ 90 then
          [("concurrent_users",
            "Struggling with " ++ toString concurrent_users ++ " concurrent users"),
           ("estimated_max",
            "Maximum capacity around " ++ toString concurrent_users ++ " users")]
        else
          [("concurrent_users",
            "Overloaded with " ++ toString concurrent_users ++ " concurrent users"),
           ("estimated_max",
            "Maximum capacity below " ++ toString concurrent_users ++ " users")]
      else []
    let scaling_recommendations : List String :=
      (if avg_response_time > 1.0 then
        ["Consider horizontal scaling (more servers)",
         "Implement load balancing"]
       else []) ++
      (if success_rate < 95 then
        ["Increase server resources (CPU/Memory)",
         "Optimize database connections"]
       else [])
    let optimization_suggestions : List String :=
      (if avg_response_time > 0.5 then
        ["Profile application code for slow functions",
         "Implement caching (Redis/Memcached)",
         "Optimize database queries"]
       else []) ++
      (if report.requests_per_second < 20 then
        ["Consider asynchronous processing",
         "Implement connection pooling"]
       else [])
    .recs current_capacity scaling_recommendations optimization_suggestions

set_option maxHeartbeats 1600000 in
/-- C8: for every report with at least one recorded response time, the
bottleneck list contains the CONNECTION_ISSUES tag iff some recorded error
string contains `"Connection"` as a substring — the detour through the
string rendering of the error-count dictionary neither adds nor loses any
such case. -/
theorem C8_connection_issues (report : TestReport)
    (h : report.response_times ≠ []) :
    ("CONNECTION_ISSUES: Server rejecting connections" ∈
        identify_bottlenecks report) ↔
      ∃ e ∈ report.errors, isSub connectionPat e.data := by
  rw [← connection_check_iff report.errors]
  have hne : report.response_times.isEmpty = false := by
    simpa [List.isEmpty_iff] using h
  rw [identify_bottlenecks]
  rw [hne]
  simp only [Bool.false_eq_true, if_false]
  cases hchk : containsSubB connectionPat
      (strOfErrorTypes (errorTypes report.errors)) with
  | false => split_ifs <;> simp_all
  | true => split_ifs <;> simp_all

/-- Witness for C8 at a concrete input: a report with one latency and a
"Connection refused" error carries the tag; the recorded error contains
"Connection". -/
theorem C8_connection_issues_witness :
    ("CONNECTION_ISSUES: Server rejecting connections" ∈
        identify_bottlenecks
          { emptyReport 0 with
              response_times := [1], total_requests := 1,
              failed_requests := 1, errors := ["Connection refused"] }) ↔
      ∃ e ∈ ({ emptyReport 0 with
              response_times := [1], total_requests := 1,
              failed_requests := 1,
              errors := ["Connection refused"] } : TestReport).errors,
        isSub connectionPat e.data :=
  C8_connection_issues _ (by simp)

/-- C9: on an empty report (no recorded response times), both analyzer
entry points return their no-data sentinels — `identify_bottlenecks`
returns exactly `["No response data available"]` and
`capacity_recommendations` returns exactly the `{"error": "No data
available"}` mapping, for every test-shape label; both functions are total,
so neither raises. -/
theorem C9_no_data_sentinels (report : TestReport) (test_type : String)
    (h : report.response_times = []) :
    identify_bottlenecks report = ["No response data available"] ∧
    capacity_recommendations report test_type = .err "No data available" := by
  constructor
  · rw [identify_bottlenecks]
    rw [h]
    rfl
  · rw [capacity_recommendations]
    rw [h]
    rfl

/-- Witness for C9 at a concrete input. -/
theorem C9_no_data_sentinels_witness :
    identify_bottlenecks (emptyReport 0) = ["No response data available"] ∧
    capacity_recommendations (emptyReport 0) "concurrent" =
      .err "No data available" :=
  C9_no_data_sentinels (emptyReport 0) "concurrent" rfl

end StressTest
